import Mathlib

/-!
Verification of the Kconfig language-server core (`srv/lsp.py`, `srv/kconfiglsp.py`).

Strings are modelled as `List Char`.  Python exceptions are modelled with
`Except PyErr`, Python `None` results with `Option`.  Each definition embeds the
source function named in its doc comment; definitions marked
"Modelled from the spec" stand for code that is not part of the repository
sources (the vendored `kconfiglib` evaluator).
-/

namespace VscodeKconfig

/-- Python exception kinds observable in the embedded code paths. -/
inductive PyErr
  | typeError
  | valueError
  | keyError
  | indexError
  | attrError
  | rpcError (code : Int)
deriving DecidableEq, Repr

/-- ASCII whitespace as matched by Python's `\s` regex class. -/
def isPyWs (c : Char) : Bool :=
  c = ' ' || c = '\t' || c = '\n' || c = '\r' || c = '\x0b' || c = '\x0c'

/-- The apostrophe character, used in diagnostic message texts. -/
def apos : Char := Char.ofNat 39

/-- Decimal digit character (the `\d` class, ASCII range). -/
def isDig (c : Char) : Bool := 48 ≤ c.toNat && c.toNat ≤ 57

/-- Value of a list of decimal digit characters (most significant first). -/
def digitsVal (l : List Char) : Nat :=
  l.foldl (fun a c => 10 * a + (c.toNat - 48)) 0

/-- Decimal digit character for `n < 10`. -/
def digitChar (n : Nat) : Char := Char.ofNat (48 + n)

/-- Decimal representation, fuel-structured so that it evaluates in the
kernel; `natRepr` supplies fuel `n`, which suffices since the number of
divisions by ten is at most `n`. -/
def natReprAux : Nat → Nat → List Char → List Char
  | 0, n, acc => digitChar n :: acc
  | fuel + 1, n, acc =>
    if n < 10 then digitChar n :: acc
    else natReprAux fuel (n / 10) (digitChar (n % 10) :: acc)

/-- Decimal representation of a natural number, as `str(n)` produces. -/
def natRepr (n : Nat) : List Char := natReprAux n n []

/-- `int(s)` for an optionally signed decimal string: strips ASCII blanks,
then accepts an optional sign followed by a nonempty digit run.
(Python also accepts underscore separators; the ids handled by the theorems
below are canonical decimal, where the behaviours agree.) -/
def pyIntParse (s : List Char) : Option Int :=
  let t := ((s.dropWhile isPyWs).reverse.dropWhile isPyWs).reverse
  match t with
  | '-' :: ds => if ds ≠ [] ∧ ds.all isDig then some (-(digitsVal ds : Int)) else none
  | '+' :: ds => if ds ≠ [] ∧ ds.all isDig then some (digitsVal ds : Int) else none
  | ds => if ds ≠ [] ∧ ds.all isDig then some (digitsVal ds : Int) else none

/-- `str.split(sep)` for a single-character separator: never returns `[]`,
and splitting the empty string gives `[[]]`. -/
def pySplitOn (sep : Char) : List Char → List (List Char)
  | [] => [[]]
  | c :: cs =>
    if c = sep then [] :: pySplitOn sep cs
    else
      match pySplitOn sep cs with
      | t :: ts => (c :: t) :: ts
      | [] => [[c]]

/-- `os.path.join(a, b)` on POSIX paths. -/
def pyPathJoin (a b : List Char) : List Char :=
  if b.head? = some '/' then b
  else if a = [] then b
  else if a.getLast? = some '/' then a ++ b
  else a ++ '/' :: b

/-- Python list subscription `l[i]`, with negative-index wraparound and
`IndexError` on out-of-range access. -/
def pyGet {α : Type} (l : List α) (i : Int) : Except PyErr α :=
  let j : Int := if i < 0 then i + l.length else i
  if h : 0 ≤ j ∧ j.toNat < l.length then .ok (l.get ⟨j.toNat, h.2⟩)
  else .error .indexError

/-- Python `list.index(x)`: index of the first element equal to `x`,
`None` standing for the `ValueError` raised when `x` is absent. -/
def listIndex {α : Type} [DecidableEq α] : List α → α → Option Nat
  | [], _ => none
  | a :: t, x => if a = x then some 0 else (listIndex t x).map (· + 1)

/-! ### Percent "sanitizing" (`Uri.parse`'s inner `sanitize`) -/

/-- Whether the list contains a `%` immediately followed by a decimal digit,
i.e. a substring the `sanitize` regex `%(\d+)` would rewrite. -/
def hasPctDigit : List Char → Bool
  | [] => false
  | c :: rest =>
    (c = '%' && (match rest with | d :: _ => isDig d | [] => false)) || hasPctDigit rest

/-- `re.sub(r'%(\d+)', lambda x: chr(int(x.group(1))), part)`, fuel-structured
so that it evaluates in the kernel (`sanitize` supplies fuel covering the
whole list, and each step consumes at least one character): each `%` that is
followed by a run of decimal digits is replaced by the character with that
decimal code.  (Python's `chr` raises above the Unicode range; `Char.ofNat`
is total there.  The theorems below never evaluate that case.) -/
def sanitizeAux : Nat → List Char → List Char
  | _, [] => []
  | 0, l => l
  | fuel + 1, c :: rest =>
    if c = '%' ∧ rest.takeWhile isDig ≠ [] then
      Char.ofNat (digitsVal (rest.takeWhile isDig)) ::
        sanitizeAux fuel (rest.drop (rest.takeWhile isDig).length)
    else
      c :: sanitizeAux fuel rest

/-- The `sanitize` helper inside `Uri.parse`. -/
def sanitize (l : List Char) : List Char := sanitizeAux l.length l

/-! ### The `Uri` class (`lsp.py` lines 187-238) -/

/-- The `Uri` value class.  `Uri.parse` stores `''` for an unmatched query or
fragment group, so both are plain strings here. -/
structure UriE where
  scheme : List Char
  authority : List Char
  path : List Char
  query : List Char
  fragment : List Char
deriving DecidableEq, Repr

/-- `Uri.file(path)` — `Uri('file', '', path)`. -/
def uriFile (p : List Char) : UriE := ⟨"file".data, [], p, [], []⟩

/-- `Uri.__repr__`: `'{}://{}{}'` plus `?query` / `#fragment` when truthy. -/
def uriRepr (u : UriE) : List Char :=
  u.scheme ++ ':' :: '/' :: '/' :: (u.authority ++ u.path)
    ++ (if u.query = [] then [] else '?' :: u.query)
    ++ (if u.fragment = [] then [] else '#' :: u.fragment)

/-- Split at the first occurrence of `"://"`. -/
def splitStr3 : List Char → Option (List Char × List Char)
  | c1 :: c2 :: c3 :: rest =>
    if c1 = ':' ∧ c2 = '/' ∧ c3 = '/' then some ([], rest)
    else
      match splitStr3 (c2 :: c3 :: rest) with
      | some (a, b) => some (c1 :: a, b)
      | none => none
  | _ => none

/-- Split at the first `'/'`, dropping it. -/
def splitSlash : List Char → Option (List Char × List Char)
  | [] => none
  | c :: cs =>
    if c = '/' then some ([], cs)
    else
      match splitSlash cs with
      | some (a, b) => some (c :: a, b)
      | none => none

/-- Character admissible in the path group `[^?\s]`. -/
def pathChar (c : Char) : Bool := !(c = '?') && !(isPyWs c)

/-- `Uri.parse(raw)` — the regex
`(.*?)://(.*?)(/[^?\s]*)(?:\?([^#]+))?(?:#(.+))?` applied with `re.match`
semantics, additionally returning the unconsumed suffix.  The lazy scheme
group stops at the first `"://"`; the lazy authority group stops at the first
`'/'` after it (backtracking past either occurrence can never succeed, since
any later `"://"` still lies behind the same `'\n'` or missing `'/'`); the
path is the greedy run of non-`'?'` non-whitespace characters; the query and
fragment groups are optional and must be nonempty, the fragment stopping at a
newline because `.` does not match one.  Each captured group is passed through
`sanitize`; an unmatched group becomes the empty string. -/
def uriParse (raw : List Char) : Option (UriE × List Char) :=
  match splitStr3 raw with
  | none => none
  | some (scheme, rest) =>
    if '\n' ∈ scheme then none else
    match splitSlash rest with
    | none => none
    | some (auth, rest2) =>
      if '\n' ∈ auth then none else
      let p := rest2.takeWhile pathChar
      let r3 := rest2.dropWhile pathChar
      let qr : List Char × List Char :=
        match r3 with
        | c :: t =>
          if c = '?' then
            if t.takeWhile (fun x => !(x = '#')) = [] then ([], r3)
            else (t.takeWhile (fun x => !(x = '#')),
                  t.dropWhile (fun x => !(x = '#')))
          else ([], r3)
        | [] => ([], r3)
      let fr : List Char × List Char :=
        match qr.2 with
        | c :: t =>
          if c = '#' then
            if t.takeWhile (fun x => !(x = '\n')) = [] then ([], qr.2)
            else (t.takeWhile (fun x => !(x = '\n')),
                  t.dropWhile (fun x => !(x = '\n')))
          else ([], qr.2)
        | [] => ([], qr.2)
      some (⟨sanitize scheme, sanitize auth, sanitize ('/' :: p),
             sanitize qr.1, sanitize fr.1⟩, fr.2)

/-- The value `Uri.parse` returns to its callers (the unconsumed suffix is
discarded by the regex match). -/
def pyUriParse (raw : List Char) : Option UriE :=
  (uriParse raw).map Prod.fst

/-! ### `TextDocument` content handling (`lsp.py` lines 320-384) -/

/-- Line boundary characters recognised by Python's `str.splitlines`. -/
def isLineBreak (c : Char) : Bool :=
  c = '\n' || c = '\r' || c = '\x0b' || c = '\x0c' ||
  c = '\x1c' || c = '\x1d' || c = '\x1e' || c = '\x85' ||
  c = '\u2028' || c = '\u2029'

/-- `str.splitlines()`: maximal terminator-free segments, `"\r\n"` counting as
one boundary, with no entry for a trailing terminator.  (The `match` arm for
an empty recursive result is unreachable, since a nonempty input always
splits into at least one line.) -/
def pySplitlines : List Char → List (List Char)
  | [] => []
  | [c] => if isLineBreak c then [[]] else [[c]]
  | c :: d :: cs =>
    if c = '\r' ∧ d = '\n' then [] :: pySplitlines cs
    else if isLineBreak c then [] :: pySplitlines (d :: cs)
    else
      match pySplitlines (d :: cs) with
      | [] => [[c]]
      | l :: ls => (c :: l) :: ls

/-- The `text` property after `_set_text(t)`:
`'\n'.join(t.splitlines())`. -/
def docText (t : List Char) : List Char :=
  List.intercalate ['\n'] (pySplitlines t)

/-! ### Kconfig expressions and the user-value checks
(`kconfiglsp.py` lines 955-961 and 1145-1169) -/

/-- Modelled from the spec: the boolean fragment of `kconfiglib` expressions
(the vendored evaluator is not among the repository sources).  Leaves are
symbol references and tristate literals; comparisons are outside this
fragment and are not needed by the checked claims. -/
inductive KExpr
  | sym (name : List Char)
  | tri (n : Nat)
  | and (a b : KExpr)
  | or (a b : KExpr)
  | not (a : KExpr)
deriving DecidableEq, Repr

/-- Modelled from the spec: `kconfiglib.expr_value` on the boolean fragment —
conjunction is minimum, disjunction is maximum, negation is `2 − x`; a symbol
reference takes its current tri-value from the environment. -/
def evalExpr (env : List Char → Nat) : KExpr → Nat
  | .sym s => env s
  | .tri n => n
  | .and a b => min (evalExpr env a) (evalExpr env b)
  | .or a b => max (evalExpr env a) (evalExpr env b)
  | .not a => 2 - evalExpr env a

/-- Modelled from the spec: `kconfiglib.split_expr(e, AND)` — decompose an
expression by conjunction, left to right. -/
def splitAnd : KExpr → List KExpr
  | .and a b => splitAnd a ++ splitAnd b
  | e => [e]

/-- Modelled from the spec: `kconfiglib.expr_str`, a printer for the boolean
fragment (only its output's nonemptiness matters to the claims). -/
def exprStr : KExpr → List Char
  | .sym s => s
  | .tri 0 => "n".data
  | .tri 1 => "m".data
  | .tri _ => "y".data
  | .and a b => exprStr a ++ " && ".data ++ exprStr b
  | .or a b => exprStr a ++ " || ".data ++ exprStr b
  | .not a => '!' :: exprStr a

/-- Symbol types (`kconfiglib.TYPE_TO_STR` domain). -/
inductive KType
  | bool | tristate | int | hex | string | unknown
deriving DecidableEq, Repr

/-- Whether the type is `BOOL` or `TRISTATE`. -/
def isTriType (t : KType) : Bool := t = .bool || t = .tristate

/-- A user value as `kconfiglib` stores it: a tri-value int for bool/tristate
symbols, a raw string for the other types. -/
inductive UserVal
  | tri (n : Nat)
  | str (s : List Char)
deriving DecidableEq, Repr

/-- The fields of a `kconfiglib.Symbol` consulted by `_missing_deps` and
`_check_user_vals`. -/
structure CSym where
  name : List Char
  type : KType
  userValue : Option UserVal
  strValue : List Char
  directDep : KExpr
deriving Repr

/-- `kconfiglib.TRI_TO_STR`: `{0: 'n', 1: 'm', 2: 'y'}`, `none` standing for
the `KeyError` on any other key. -/
def triToStr (n : Nat) : Option (List Char) :=
  match n with
  | 0 => some "n".data
  | 1 => some "m".data
  | 2 => some "y".data
  | _ => none

/-- `_missing_deps(sym)` (`kconfiglsp.py` 955-961): split the direct
dependency on `AND`; for bool/tristate keep conjuncts evaluating strictly
below the user value, otherwise keep conjuncts evaluating to zero.  `none`
stands for the `TypeError` Python raises when the `<` comparison meets a
non-int user value. -/
def missingDeps (env : List Char → Nat) (sym : CSym) : Option (List KExpr) :=
  let deps := splitAnd sym.directDep
  if isTriType sym.type then
    match sym.userValue with
    | some (.tri n) => some (deps.filter (fun d => decide (evalExpr env d < n)))
    | _ => none
  else
    some (deps.filter (fun d => decide (evalExpr env d = 0)))

/-- Message `f'CONFIG_{name} couldn\'t be set.'`. -/
def couldntMsg (name : List Char) : List Char :=
  "CONFIG_".data ++ name ++ " couldn".data ++ [apos] ++ "t be set.".data

/-- Message `f'CONFIG_{name} was assigned the value {v}, but got the value
{v2}.'`. -/
def assignedMsg (name v v2 : List Char) : List Char :=
  "CONFIG_".data ++ name ++ " was assigned the value ".data ++ v ++
    ", but got the value ".data ++ v2 ++ ".".data

/-- `' Missing dependencies:\n' + ' && '.join(deps)` appended when the
missing-dependency list is nonempty. -/
def depsSuffix (deps : List (List Char)) : List Char :=
  if deps = [] then []
  else " Missing dependencies:\n".data ++ List.intercalate " && ".data deps

/-- `user_val` as `_check_user_vals` displays and compares it
(`kconfiglsp.py` 1150-1156): `user_val = sym.user_value`, mapped through
`TRI_TO_STR` for bool/tristate symbols (`KeyError` on a non-tri value),
paired with the `user_val == sym.str_value` test.  A non-tri symbol whose
user value is an int compares unequal to any string in Python, and is
formatted with `str()` by the f-string. -/
def dispOf (ty : KType) (uv : UserVal) (sv : List Char) :
    Except PyErr (List Char × Bool) :=
  if isTriType ty then
    match uv with
    | .tri n =>
      match triToStr n with
      | some s => .ok (s, s == sv)
      | none => .error .keyError
    | .str _ => .error .keyError
  else
    match uv with
    | .str s => .ok (s, s == sv)
    | .tri n => .ok (natRepr n, false)

/-- The string the f-string interpolates as `{user_val}` in the warning
message: the first component of `dispOf` (`none` when no user value is set
or `TRI_TO_STR` raises). -/
def userValDisp (sym : CSym) : Option (List Char) :=
  match sym.userValue with
  | none => none
  | some uv =>
    match dispOf sym.type uv sym.strValue with
    | .ok p => some p.1
    | .error _ => none

/-- The per-symbol body of `KconfigContext._check_user_vals`
(`kconfiglsp.py` 1145-1164): skip symbols without a user value, display the
user value through `dispOf`, skip when it equals `str_value`, pick the
warning text by `len(sym.str_value)`, and append the missing-dependency
list when nonempty.  `.ok none` means no warning; `.error` models the
Python exceptions (`TRI_TO_STR` `KeyError` on a non-tri user value of a
bool/tristate symbol, `TypeError` inside `_missing_deps`). -/
def checkSymWarning (env : List Char → Nat) (sym : CSym) :
    Except PyErr (Option (List Char)) :=
  match sym.userValue with
  | none => .ok none
  | some uv =>
    match dispOf sym.type uv sym.strValue with
    | .error e => .error e
    | .ok (userValStr, eqv) =>
      if eqv then .ok none
      else
        let base :=
          if sym.strValue.isEmpty then assignedMsg sym.name userValStr sym.strValue
          else couldntMsg sym.name
        match missingDeps env sym with
        | none => .error .typeError
        | some deps => .ok (some (base ++ depsSuffix (deps.map exprStr)))

/-- `ConfFile.find(name)` (`kconfiglsp.py` 1016-1022): for each line matching
`^\s*(CONFIG_<name>)\s*\=`, the line number with the column span of the
`CONFIG_<name>` group. -/
def confEntryMatch (name line : List Char) : Option (Nat × Nat) :=
  let ws := line.takeWhile isPyWs
  let rest := line.drop ws.length
  let tok := "CONFIG_".data ++ name
  if tok.isPrefixOf rest then
    let rest2 := (rest.drop tok.length).dropWhile isPyWs
    match rest2 with
    | '=' :: _ => some (ws.length, ws.length + tok.length)
    | _ => none
  else none

/-- All entry ranges `ConfFile.find(name)` returns for a file's lines. -/
def fileEntries (lines : List (List Char)) (name : List Char) :
    List (Nat × Nat × Nat) :=
  lines.enum.filterMap (fun p =>
    (confEntryMatch name p.2).map (fun q => (p.1, q.1, q.2)))

/-- A diagnostic attached by `_check_user_vals`: message plus the matched
entry's line and column span. -/
structure EntryDiag where
  msg : List Char
  line : Nat
  colStart : Nat
  colEnd : Nat
deriving DecidableEq, Repr

/-- `KconfigContext._check_user_vals` (`kconfiglsp.py` 1145-1169): for each
symbol in order, compute its warning and append one diagnostic per matching
entry to every `.conf` file's diagnostic list. -/
def checkUserVals (env : List Char → Nat) :
    List CSym → List (List (List Char)) → Except PyErr (List (List EntryDiag))
  | [], files => .ok (files.map (fun _ => []))
  | s :: ss, files =>
    match checkSymWarning env s with
    | .error e => .error e
    | .ok none => checkUserVals env ss files
    | .ok (some w) =>
      match checkUserVals env ss files with
      | .error e => .error e
      | .ok rests =>
        .ok (List.zipWith
          (fun lines rest =>
            (fileEntries lines s.name).map (fun r => ⟨w, r.1, r.2.1, r.2.2⟩) ++ rest)
          files rests)

/-! ### Menu node identifiers (`kconfiglsp.py` lines 1054-1104, 1303-1307) -/

/-- The alternatives a `MenuNode.item` ranges over: the `MENU` constant, a
`Symbol` (carrying its name), a `Choice` (carrying the choice's identity), or
the `COMMENT` constant.  The synthetic top node is detected by comparison
with `Kconfig.top_node`, not by its item. -/
inductive NodeItem
  | menu
  | sym (name : List Char)
  | choice (cid : Nat)
  | comment
deriving DecidableEq, Repr

/-- A `kconfiglib.MenuNode`; `nid` models object identity. -/
structure MNode where
  nid : Nat
  item : NodeItem
deriving DecidableEq, Repr

/-- A `kconfiglib.Choice`; `cid` models object identity. -/
structure KChoice where
  cid : Nat
deriving DecidableEq, Repr

/-- The parts of a `KconfigContext` used by `_node_id`, `find_node` and
`get_menu`: the parse version, the `kconfiglib` node lists, and the focused
menu id. -/
structure KCtx where
  version : Nat
  topNode : MNode
  menus : List MNode
  comments : List MNode
  syms : List (List Char × List MNode)
  choices : List KChoice
  menu : Option (List Char)
deriving Repr

/-- One element of the `parts` list built by `_node_id`: Python strings and
ints mixed in one list. -/
inductive IdPart
  | s (v : List Char)
  | i (v : Nat)
deriving DecidableEq, Repr

/-- The strings of a parts list, `none` when any element is an `int`. -/
def idPartsStrs : List IdPart → Option (List (List Char))
  | [] => some []
  | .s v :: ps => (idPartsStrs ps).map (fun r => v :: r)
  | .i _ :: _ => none

/-- `ID_SEP.join(parts)`: Python's `str.join` raises `TypeError` when any
element is not a string. -/
def joinId (parts : List IdPart) : Except PyErr (List Char) :=
  match idPartsStrs parts with
  | some strs => .ok (List.intercalate ['@'] strs)
  | none => .error .typeError

/-- `KconfigContext._node_id(node)` (`kconfiglsp.py` 1054-1070).  The
`CHOICE` branch evaluates `self._kconfig.choices.index(node)`, searching a
`MenuNode` in a list of `Choice` objects — never found, so it raises
`ValueError`.  The `COMMENT` branch puts the raw `int` index in `parts`, so
the final `join` raises `TypeError`. -/
def nodeId (ctx : KCtx) (node : MNode) : Except PyErr (List Char) :=
  let parts : Except PyErr (List IdPart) :=
    if node = ctx.topNode then .ok [.s "MAINMENU".data]
    else
      match node.item with
      | .menu =>
        match listIndex ctx.menus node with
        | some i => .ok [.s "MENU".data, .s (natRepr i)]
        | none => .error .valueError
      | .sym name =>
        match List.lookup name ctx.syms with
        | some nodes =>
          match listIndex nodes node with
          | some i => .ok [.s "SYM".data, .s name, .s (natRepr i)]
          | none => .error .valueError
        | none => .error .keyError
      | .choice _ => .error .valueError
      | .comment =>
        match listIndex ctx.comments node with
        | some i => .ok [.s "COMMENT".data, .i i]
        | none => .error .valueError
  match parts with
  | .error e => .error e
  | .ok ps => joinId (.s (natRepr ctx.version) :: ps)

/-- What `find_node` can return: a `MenuNode`, or — in the `CHOICE` branch —
a `Choice` object. -/
inductive Found
  | node (n : MNode)
  | choice (c : KChoice)
deriving DecidableEq, Repr

/-- `KconfigContext.find_node(id)` (`kconfiglsp.py` 1072-1093): unpack
`id.split(ID_SEP)` into version, type and the remaining parts (`ValueError`
when fewer than two pieces), return `None` when `int(version)` differs from
the context's parse version, then index into the list selected by the type
tag.  An unknown tag falls through to an implicit `None`. -/
def findNode (ctx : KCtx) (id : List Char) : Except PyErr (Option Found) :=
  match pySplitOn '@' id with
  | version :: ty :: parts =>
    match pyIntParse version with
    | none => .error .valueError
    | some v =>
      if v ≠ (ctx.version : Int) then .ok none
      else if ty = "MENU".data then
        match parts.head? with
        | none => .error .indexError
        | some p0 =>
          match pyIntParse p0 with
          | none => .error .valueError
          | some i => (pyGet ctx.menus i).map (fun n => some (.node n))
      else if ty = "SYM".data then
        match parts.head? with
        | none => .error .indexError
        | some p0 =>
          match List.lookup p0 ctx.syms with
          | none => .error .keyError
          | some nodes =>
            match parts.tail.head? with
            | none => .error .indexError
            | some p1 =>
              match pyIntParse p1 with
              | none => .error .valueError
              | some i => (pyGet nodes i).map (fun n => some (.node n))
      else if ty = "CHOICE".data then
        match parts.head? with
        | none => .error .indexError
        | some p0 =>
          match pyIntParse p0 with
          | none => .error .valueError
          | some i => (pyGet ctx.choices i).map (fun c => some (.choice c))
      else if ty = "COMMENT".data then
        match parts.head? with
        | none => .error .indexError
        | some p0 =>
          match pyIntParse p0 with
          | none => .error .valueError
          | some i => (pyGet ctx.comments i).map (fun n => some (.node n))
      else if ty = "MAINMENU".data then
        .ok (some (.node ctx.topNode))
      else
        .ok none
  | _ => .error .valueError

/-- `KconfigContext.get_menu(id)` (`kconfiglsp.py` 1095-1104): an empty id
falls back to the stored menu id; a failed lookup returns `None`; a
successful lookup evaluates `KconfigMenu(node, id)`, which raises
`TypeError` because `KconfigMenu.__init__` takes `(ctx, node, id)`. -/
def getMenu (ctx : KCtx) (id : List Char) : Except PyErr (Option Unit) :=
  let chosen : Option (List Char) := if id = [] then ctx.menu else some id
  match chosen with
  | none => .ok none
  | some theId =>
    match findNode ctx theId with
    | .error e => .error e
    | .ok none => .ok none
    | .ok (some _) => .error .typeError

/-- `KconfigServer.handle_set_menu` (`kconfiglsp.py` 1303-1307): store the
requested id as the context's menu, then return `get_menu(id)`. -/
def handleSetMenu (ctx : KCtx) (id : List Char) :
    KCtx × Except PyErr (Option Unit) :=
  let ctx2 := { ctx with menu := some id }
  (ctx2, getMenu ctx2 id)

/-! ### `.conf` stack loading (`kconfiglsp.py` lines 1174-1178, 1202-1210,
1213-1218, 1228-1247) -/

/-- `BoardConf` (`kconfiglsp.py` 1202-1210). -/
structure BoardConf where
  name : List Char
  arch : List Char
  dir : List Char
deriving Repr

/-- `BoardConf.conf_files`: `[os.path.join(self.dir, self.name +
'_defconfig')]`. -/
def boardConfFiles (b : BoardConf) : List (List Char) :=
  [pyPathJoin b.dir (b.name ++ "_defconfig".data)]

/-- The board configuration `KconfigServer.__init__` hard-codes
(`kconfiglsp.py` 1218). -/
def serverBoardConf : BoardConf :=
  ⟨"nrf52dk_nrf52832".data, "arm".data,
    "/home/trond/ncs/zephyr/boards/arm/nrf52dk_nrf52832".data⟩

/-- The `.conf` path list `KconfigServer.create_ctx` hands to the new context
(`kconfiglsp.py` 1231): the server's board defconfig paths prepended to the
user-supplied paths.  The environment argument is stored on the context but
takes no part in this computation. -/
def createCtxFiles (_env : List (List Char × List Char))
    (userConf : List (List Char)) : List (List Char) :=
  boardConfFiles serverBoardConf ++ userConf

/-- The `(path, replace)` argument pairs of the `self._kconfig.load_config`
calls issued by `KconfigContext.load_config` (`kconfiglsp.py` 1177-1178):
`enumerate` pairs each file with its index, and `replace` is `i == 0`. -/
def loadConfigCallsAux (i : Nat) : List (List Char) → List (List Char × Bool)
  | [] => []
  | p :: ps => (p, decide (i = 0)) :: loadConfigCallsAux (i + 1) ps

/-- The full call list, starting the enumeration at index 0. -/
def loadConfigCalls (paths : List (List Char)) : List (List Char × Bool) :=
  loadConfigCallsAux 0 paths

/-- Modelled from the spec: the user-value state
`kconfiglib.Kconfig.load_config` maintains (the vendored loader is not among
the repository sources) — an assignment overwrites an earlier value for the
same name, and a load with `replace=True` first clears all user values. -/
def setUserVal (st : List (List Char × List Char)) (k v : List Char) :
    List (List Char × List Char) :=
  if st.any (fun p => p.1 = k) then
    st.map (fun p => if p.1 = k then (k, v) else p)
  else st ++ [(k, v)]

/-- Modelled from the spec: apply one `.conf` file's entries in order. -/
def applyEntries (st : List (List Char × List Char))
    (es : List (List Char × List Char)) : List (List Char × List Char) :=
  es.foldl (fun acc e => setUserVal acc e.1 e.2) st

/-- Modelled from the spec: run the `.conf` stack — each file is a list of
entries paired with its `replace` flag; `replace` discards the prior state. -/
def runLoadStack (st : List (List Char × List Char)) :
    List (List (List Char × List Char) × Bool) → List (List Char × List Char)
  | [] => st
  | (es, rep) :: rest =>
    runLoadStack (applyEntries (if rep then [] else st) es) rest

/-! ### Diagnostic routing and publication (`kconfiglsp.py` lines 1181-1190,
1222-1226, 1291-1301) -/

/-- A diagnostic, reduced to its message (ranges play no role in routing). -/
structure DiagE where
  msg : List Char
deriving DecidableEq, Repr

/-- A `ConfFile`: the path of its document's `file://` URI plus its
diagnostic list. -/
structure ConfFileE where
  path : List Char
  diags : List DiagE
deriving DecidableEq, Repr

/-- `KconfigContext.conf_file(uri)` combined with `file.diags.extend(diags)`
(`kconfiglsp.py` 1186-1188): extend the first file whose document URI equals
the given one (`Uri.__eq__` compares the rendered strings), `none` when no
file matches. -/
def extendMatching (uri : List Char) (ds : List DiagE) :
    List ConfFileE → Option (List ConfFileE)
  | [] => none
  | f :: fs =>
    if uriRepr (uriFile f.path) = uri then some ({ f with diags := f.diags ++ ds } :: fs)
    else (extendMatching uri ds fs).map (fun r => f :: r)

/-- The diagnostic-routing loop at the end of `KconfigContext.load_config`
(`kconfiglsp.py` 1181-1190): each `(filename, diags)` item of the parser's
diagnostic dict goes to the command-line bucket when the filename is empty,
to the matching `.conf` file when one exists, and to the command-line bucket
otherwise. -/
def routeDiags (files : List ConfFileE) (cmd : List DiagE) :
    List (List Char × List DiagE) → List ConfFileE × List DiagE
  | [] => (files, cmd)
  | (fname, ds) :: rest =>
    if fname = [] then routeDiags files (cmd ++ ds) rest
    else
      match extendMatching (uriRepr (uriFile fname)) ds files with
      | some files2 => routeDiags files2 cmd rest
      | none => routeDiags files (cmd ++ ds) rest

/-- The `publishDiagnostics` notifications `KconfigServer.handle_change`
sends (`kconfiglsp.py` 1291-1301): one per `.conf` file of the last context,
then one for the command-line bucket under `Uri.file('command-line')`.  Each
pair is the rendered URI with the published list. -/
def publishList (files : List ConfFileE) (cmd : List DiagE) :
    List (List Char × List DiagE) :=
  files.map (fun f => (uriRepr (uriFile f.path), f.diags))
    ++ [(uriRepr (uriFile "command-line".data), cmd)]

/-! ### Context routing (`kconfiglsp.py` lines 1051-1052, 1249-1256) -/

/-- The parts of a context `best_ctx` consults: its identity and the URIs of
its `.conf` files (as rendered strings, which is what `Uri.__eq__`
compares). -/
structure CtxRef where
  ctxId : Nat
  confUris : List (List Char)
deriving DecidableEq, Repr

/-- `KconfigContext.has_file(uri)` (`kconfiglsp.py` 1051-1052). -/
def hasFile (c : CtxRef) (uri : List Char) : Bool :=
  c.confUris.any (fun v => v = uri)

/-- `KconfigServer.best_ctx(uri)` (`kconfiglsp.py` 1249-1256), returning the
chosen context together with the updated `last_ctx`.  The fallback iterates
`self.ctx.items()`, whose elements are `(id, context)` tuples, and calls
`.has_file` on a tuple: on a nonempty context dict this raises
`AttributeError` at the first element; only an empty dict reaches the
`None` result. -/
def bestCtx (last : Option CtxRef) (ctxs : List (Nat × CtxRef))
    (uri : List Char) : Except PyErr (Option CtxRef × Option CtxRef) :=
  match last with
  | some l =>
    if hasFile l uri then .ok (some l, some l)
    else
      match ctxs with
      | [] => .ok (none, some l)
      | _ :: _ => .error .attrError
  | none =>
    match ctxs with
    | [] => .ok (none, none)
    | _ :: _ => .error .attrError

/-! ### RPC request handling (`lsp.py` lines 146-179) -/

/-- The outcome of invoking a request's handler. -/
inductive HandlerOutcome
  | ok
  | raiseRpc (code : Int)
  | raiseExn
deriving DecidableEq, Repr

/-- An exception escaping `RPCServer.handle`. -/
inductive RaisedExn
  | rpc (code : Int)
  | other
deriving DecidableEq, Repr

/-- One message sent by `RPCServer.handle` for a request: `none` is a success
response, `some code` an error response with that code. -/
abbrev SentRsp := Option Int

/-- `RPCServer.handle` on a request (`lsp.py` 146-172): an unknown method is
answered with `MethodNotFound` (-32601); a handler that returns normally is
answered with its result; a handler that raises — `RPCError` or not — hits a
`raise e` before any response is sent, so nothing is sent and the exception
propagates (the `RPCError(UNKNOWN_ERROR_CODE, ...)` built for the generic
case is dead).  Result: the sent responses and the escaping exception. -/
def handleRequest (hasHandler : Bool) (outcome : HandlerOutcome) :
    List SentRsp × Option RaisedExn :=
  if hasHandler then
    match outcome with
    | .ok => ([none], none)
    | .raiseRpc c => ([], some (.rpc c))
    | .raiseExn => ([], some .other)
  else ([some (-32601)], none)

/-- `RPCServer.loop` (`lsp.py` 174-179): handle incoming requests until one
raises — only `KeyboardInterrupt` is caught, so any exception escaping
`handle` ends the loop with the remaining messages unprocessed. -/
def loopRun : List (Bool × HandlerOutcome) → List SentRsp × Option RaisedExn
  | [] => ([], none)
  | (h, o) :: rest =>
    match handleRequest h o with
    | (sent, some e) => (sent, some e)
    | (sent, none) =>
      match loopRun rest with
      | (s2, e2) => (sent ++ s2, e2)

/-! ## Supporting lemmas -/

theorem natReprAux_acc (fuel : Nat) :
    ∀ n acc, natReprAux fuel n acc = natReprAux fuel n [] ++ acc := by
  induction fuel with
  | zero => intro n acc; simp [natReprAux]
  | succ fuel ih =>
    intro n acc
    by_cases h : n < 10
    · simp [natReprAux, h]
    · simp only [natReprAux, h, if_false]
      rw [ih (n / 10) (digitChar (n % 10) :: acc), ih (n / 10) [digitChar (n % 10)]]
      simp

theorem natReprAux_ne_nil (fuel n : Nat) : natReprAux fuel n [] ≠ [] := by
  cases fuel with
  | zero => simp [natReprAux]
  | succ fuel =>
    by_cases h : n < 10
    · simp [natReprAux, h]
    · simp only [natReprAux, h, if_false]
      rw [natReprAux_acc]
      simp

theorem digitChar_toNat {n : Nat} (h : n < 10) : (digitChar n).toNat = 48 + n := by
  interval_cases n <;> decide

theorem natReprAux_bounds (fuel : Nat) :
    ∀ n, n ≤ fuel → ∀ c ∈ natReprAux fuel n [], 48 ≤ c.toNat ∧ c.toNat ≤ 57 := by
  induction fuel with
  | zero =>
    intro n hn c hc
    interval_cases n
    simp only [natReprAux, List.mem_singleton] at hc
    subst hc
    rw [digitChar_toNat (by omega)]
    omega
  | succ fuel ih =>
    intro n hn c hc
    by_cases h : n < 10
    · simp only [natReprAux, h, if_true, List.mem_singleton] at hc
      subst hc
      rw [digitChar_toNat h]
      omega
    · simp only [natReprAux, h, if_false] at hc
      rw [natReprAux_acc] at hc
      rcases List.mem_append.mp hc with hc | hc
      · exact ih (n / 10) (by omega) c hc
      · simp only [List.mem_singleton] at hc
        subst hc
        rw [digitChar_toNat (by omega)]
        omega

theorem digitsVal_append_one (xs : List Char) (c : Char) :
    digitsVal (xs ++ [c]) = 10 * digitsVal xs + (c.toNat - 48) := by
  simp [digitsVal, List.foldl_append]

theorem natReprAux_val (fuel : Nat) :
    ∀ n, n ≤ fuel → digitsVal (natReprAux fuel n []) = n := by
  induction fuel with
  | zero =>
    intro n hn
    interval_cases n
    simp [natReprAux, digitsVal, digitChar_toNat (by omega : (0:Nat) < 10)]
  | succ fuel ih =>
    intro n hn
    by_cases h : n < 10
    · simp [natReprAux, h, digitsVal, digitChar_toNat h]
    · simp only [natReprAux, h, if_false]
      rw [natReprAux_acc, digitsVal_append_one, ih (n / 10) (by omega),
        digitChar_toNat (by omega : n % 10 < 10)]
      omega

theorem natRepr_bounds {n : Nat} {c : Char} (hc : c ∈ natRepr n) :
    48 ≤ c.toNat ∧ c.toNat ≤ 57 :=
  natReprAux_bounds n n (Nat.le_refl n) c hc

theorem natRepr_digits {n : Nat} {c : Char} (hc : c ∈ natRepr n) : isDig c = true := by
  have := natRepr_bounds hc
  simp [isDig]
  omega

theorem natRepr_ne_nil (n : Nat) : natRepr n ≠ [] := natReprAux_ne_nil n n

theorem digitsVal_natRepr (n : Nat) : digitsVal (natRepr n) = n :=
  natReprAux_val n n (Nat.le_refl n)

theorem natRepr_no_at (n : Nat) : '@' ∉ natRepr n := by
  intro h
  have hb := natRepr_bounds h
  have h64 : '@'.toNat = 64 := rfl
  omega

theorem digit_not_ws {c : Char} (h : 48 ≤ c.toNat) : isPyWs c = false := by
  simp only [isPyWs, Bool.or_eq_false_iff, decide_eq_false_iff_not]
  refine ⟨⟨⟨⟨⟨?_, ?_⟩, ?_⟩, ?_⟩, ?_⟩, ?_⟩ <;>
    (intro he; subst he; exact absurd h (by decide))

theorem dropWhile_head_false {α : Type} {p : α → Bool} :
    ∀ {l : List α}, (∀ c, l.head? = some c → p c = false) → l.dropWhile p = l := by
  intro l h
  cases l with
  | nil => rfl
  | cons a t => simp [List.dropWhile_cons, h a rfl]

theorem pyIntParse_natRepr (n : Nat) : pyIntParse (natRepr n) = some (n : Int) := by
  have hd : ∀ c ∈ natRepr n, isDig c = true := fun c hc => natRepr_digits hc
  have hnn := natRepr_ne_nil n
  have hhead : ∀ {l : List Char}, (∀ c ∈ l, isDig c = true) →
      ∀ c, l.head? = some c → isPyWs c = false := by
    intro l hl c hc
    rcases l with _ | ⟨a, t⟩
    · simp at hc
    · simp only [List.head?_cons, Option.some.injEq] at hc
      have hda := hl a (by simp)
      simp only [isDig, Bool.and_eq_true, decide_eq_true_eq] at hda
      rw [← hc]
      exact digit_not_ws hda.1
  have hdrop : (natRepr n).dropWhile isPyWs = natRepr n :=
    dropWhile_head_false (hhead hd)
  have hdrop2 : ((natRepr n).reverse.dropWhile isPyWs).reverse = natRepr n := by
    rw [dropWhile_head_false (hhead (fun c hc => hd c (List.mem_reverse.mp hc))),
      List.reverse_reverse]
  rcases hr : natRepr n with _ | ⟨a, t⟩
  · exact absurd hr hnn
  · have hane : a ≠ '-' ∧ a ≠ '+' := by
      have hb := natRepr_bounds (c := a) (by rw [hr]; simp)
      constructor <;> (intro he; subst he; exact absurd hb (by decide))
    have hall : (a :: t).all isDig = true := by
      rw [← hr]
      exact List.all_eq_true.mpr hd
    have hval : digitsVal (a :: t) = n := by
      rw [← hr]
      exact digitsVal_natRepr n
    simp only [pyIntParse]
    rw [← hr, hdrop, hdrop2, hr]
    split
    · next ds heq =>
      exact absurd (List.cons.inj heq).1 hane.1
    · next ds heq =>
      exact absurd (List.cons.inj heq).1 hane.2
    · next h1 h2 =>
      rw [if_pos ⟨List.cons_ne_nil a t, hall⟩, hval]

theorem pySplitOn_no_sep {sep : Char} :
    ∀ {a : List Char}, sep ∉ a → pySplitOn sep a = [a] := by
  intro a
  induction a with
  | nil => intro _; rfl
  | cons c cs ih =>
    intro h
    have hc : ¬(c = sep) := fun he => h (by simp [he])
    rw [pySplitOn, if_neg hc, ih (fun hm => h (List.mem_cons_of_mem _ hm))]

theorem pySplitOn_append {sep : Char} :
    ∀ {a : List Char} (b : List Char), sep ∉ a →
      pySplitOn sep (a ++ sep :: b) = a :: pySplitOn sep b := by
  intro a
  induction a with
  | nil =>
    intro b _
    simp [pySplitOn]
  | cons c cs ih =>
    intro b h
    have hc : ¬(c = sep) := fun he => h (by simp [he])
    rw [List.cons_append, pySplitOn, if_neg hc,
      ih b (fun hm => h (List.mem_cons_of_mem _ hm))]

theorem intercalate_cons_cons (s x : List Char) (y : List Char)
    (ls : List (List Char)) :
    List.intercalate s (x :: y :: ls) = x ++ s ++ List.intercalate s (y :: ls) := by
  simp [List.intercalate, List.intersperse]

theorem intercalate_single (s x : List Char) :
    List.intercalate s [x] = x := by
  simp [List.intercalate]

theorem hasPctDigit_append_false {b : List Char} :
    ∀ {a : List Char}, hasPctDigit (a ++ b) = false →
      hasPctDigit a = false ∧ hasPctDigit b = false := by
  intro a
  induction a with
  | nil => intro h; exact ⟨rfl, h⟩
  | cons c cs ih =>
    intro h
    simp only [List.cons_append, hasPctDigit, Bool.or_eq_false_iff] at h
    obtain ⟨h1, h2⟩ := h
    obtain ⟨ha, hb⟩ := ih h2
    simp only [hasPctDigit, Bool.or_eq_false_iff]
    refine ⟨⟨?_, ha⟩, hb⟩
    cases cs with
    | nil => simp
    | cons d ds => simpa using h1

theorem sanitizeAux_id : ∀ (l : List Char) (fuel : Nat),
    hasPctDigit l = false → sanitizeAux fuel l = l := by
  intro l
  induction l with
  | nil => intro fuel _; cases fuel <;> rfl
  | cons c cs ih =>
    intro fuel h
    simp only [hasPctDigit, Bool.or_eq_false_iff] at h
    obtain ⟨h1, h2⟩ := h
    cases fuel with
    | zero => rfl
    | succ fuel =>
      have hcond : ¬(c = '%' ∧ cs.takeWhile isDig ≠ []) := by
        rintro ⟨rfl, hne⟩
        cases cs with
        | nil => simp [List.takeWhile] at hne
        | cons d ds =>
          rcases hd : isDig d with _ | _
          · simp [List.takeWhile_cons, hd] at hne
          · simp [hd] at h1
      rw [sanitizeAux, if_neg hcond, ih fuel h2]

theorem sanitize_id {l : List Char} (h : hasPctDigit l = false) : sanitize l = l :=
  sanitizeAux_id l l.length h

theorem listIndex_spec {α : Type} [DecidableEq α] :
    ∀ {l : List α} {x : α} {i : Nat}, listIndex l x = some i →
      ∃ hi : i < l.length, l.get ⟨i, hi⟩ = x := by
  intro l
  induction l with
  | nil => intro x i h; simp [listIndex] at h
  | cons a t ih =>
    intro x i h
    rw [listIndex] at h
    by_cases ha : a = x
    · rw [if_pos ha] at h
      cases h
      exact ⟨by simp, ha⟩
    · rw [if_neg ha] at h
      rcases hmap : listIndex t x with _ | j
      · rw [hmap] at h
        simp at h
      · rw [hmap] at h
        simp only [Option.map_some'] at h
        cases h
        obtain ⟨hj, hget⟩ := ih hmap
        exact ⟨by simpa using Nat.succ_lt_succ hj, by simpa using hget⟩

theorem listIndex_of_mem {α : Type} [DecidableEq α] :
    ∀ {l : List α} {x : α}, x ∈ l → ∃ i, listIndex l x = some i := by
  intro l
  induction l with
  | nil => intro x h; cases h
  | cons a t ih =>
    intro x h
    by_cases ha : a = x
    · exact ⟨0, by rw [listIndex, if_pos ha]⟩
    · have hx : x ∈ t := by
        rcases List.mem_cons.mp h with h | h
        · exact absurd h.symm ha
        · exact h
      obtain ⟨i, hi⟩ := ih hx
      exact ⟨i + 1, by rw [listIndex, if_neg ha, hi, Option.map_some']⟩

theorem pyGet_nat {α : Type} (l : List α) (i : Nat) (hi : i < l.length) :
    pyGet l (i : Int) = .ok (l.get ⟨i, hi⟩) := by
  have h0 : ¬((i : Int) < 0) := by omega
  simp only [pyGet, h0, if_false]
  rw [dif_pos ⟨by omega, by simpa using hi⟩]
  simp

theorem splitStr3_eq :
    ∀ {raw s r : List Char}, splitStr3 raw = some (s, r) →
      raw = s ++ ':' :: '/' :: '/' :: r := by
  intro raw
  induction raw with
  | nil => intro s r h; simp [splitStr3] at h
  | cons c1 cs ih =>
    intro s r h
    rcases cs with _ | ⟨c2, cs2⟩
    · simp [splitStr3] at h
    · rcases cs2 with _ | ⟨c3, rest⟩
      · simp [splitStr3] at h
      · simp only [splitStr3] at h
        by_cases hc : c1 = ':' ∧ c2 = '/' ∧ c3 = '/'
        · rw [if_pos hc] at h
          cases h
          obtain ⟨rfl, rfl, rfl⟩ := hc
          rfl
        · rw [if_neg hc] at h
          rcases hs : splitStr3 (c2 :: c3 :: rest) with _ | ⟨ab⟩
          · rw [hs] at h
            cases h
          · rcases ab with ⟨a, b⟩
            rw [hs] at h
            cases h
            have := ih hs
            rw [List.cons_append, ← this]

theorem splitSlash_eq :
    ∀ {l a r : List Char}, splitSlash l = some (a, r) → l = a ++ '/' :: r := by
  intro l
  induction l with
  | nil => intro a r h; simp [splitSlash] at h
  | cons c cs ih =>
    intro a r h
    rw [splitSlash] at h
    by_cases hc : c = '/'
    · rw [if_pos hc] at h
      cases h
      rw [hc]
      rfl
    · rw [if_neg hc] at h
      rcases hs : splitSlash cs with _ | ⟨a2, b2⟩
      · rw [hs] at h
        cases h
      · rw [hs] at h
        cases h
        rw [List.cons_append, ← ih hs]

theorem dropWhile_head_not {α : Type} {p : α → Bool} :
    ∀ {l : List α} {c : α} {r : List α}, l.dropWhile p = c :: r → p c = false := by
  intro l
  induction l with
  | nil => intro c r h; simp at h
  | cons a t ih =>
    intro c r h
    rw [List.dropWhile_cons] at h
    by_cases ha : p a = true
    · rw [if_pos ha] at h
      exact ih h
    · rw [if_neg ha] at h
      cases h
      exact Bool.eq_false_iff.mpr ha

theorem loadConfigCallsAux_fst :
    ∀ (i : Nat) (paths : List (List Char)),
      (loadConfigCallsAux i paths).map Prod.fst = paths := by
  intro i paths
  induction paths generalizing i with
  | nil => rfl
  | cons p ps ih => simp [loadConfigCallsAux, ih]

theorem loadConfigCallsAux_pos_false :
    ∀ (i : Nat) (paths : List (List Char)) (q : List Char × Bool),
      q ∈ loadConfigCallsAux (i + 1) paths → q.2 = false := by
  intro i paths
  induction paths generalizing i with
  | nil => intro q h; cases h
  | cons p ps ih =>
    intro q h
    rcases List.mem_cons.mp h with h | h
    · subst h; simp
    · exact ih (i + 1) q h

theorem routeDiags_cmd_mono :
    ∀ (items : List (List Char × List DiagE)) (files : List ConfFileE)
      (cmd : List DiagE) (d : DiagE), d ∈ cmd →
      d ∈ (routeDiags files cmd items).2 := by
  intro items
  induction items with
  | nil => intro files cmd d h; exact h
  | cons it rest ih =>
    intro files cmd d h
    rcases it with ⟨fname, ds⟩
    rw [routeDiags]
    by_cases hf : fname = []
    · rw [if_pos hf]
      exact ih _ _ _ (List.mem_append_left _ h)
    · rw [if_neg hf]
      rcases hx : extendMatching (uriRepr (uriFile fname)) ds files with _ | files2
      · exact ih _ _ _ (List.mem_append_left _ h)
      · exact ih _ _ _ h

/-! ## The claims -/

/-- C8 (claim is right, code is wrong): for a request whose handler raises a
non-`RPCError` exception, `RPCServer.handle` sends no response at all — the
`raise e` fires before `self.rsp` — and the exception escapes `loop`, so a
following request is never processed.  The claim's `UnknownErrorCode`
(-32001) response is built but dead. -/
theorem c8_unexpected_exception_kills_loop :
    handleRequest true .raiseExn = ([], some .other) ∧
    loopRun [(true, .raiseExn), (true, .ok)] = ([], some .other) ∧
    handleRequest false .ok = ([some (-32601)], none) := by
  refine ⟨rfl, rfl, rfl⟩

/-- C7 (claim is right, code is wrong): when the most-recently-used context
does not contain the queried URI, the fallback in `KconfigServer.best_ctx`
iterates `self.ctx.items()` — `(id, context)` tuples — and calls `.has_file`
on a tuple, raising `AttributeError` instead of returning the first matching
context.  The MRU path itself works. -/
theorem c7_best_ctx_fallback_attribute_error :
    bestCtx none [(0, ⟨0, ["file:///prj.conf".data]⟩)] "file:///prj.conf".data =
      .error .attrError ∧
    bestCtx (some ⟨0, ["file:///prj.conf".data]⟩) [(0, ⟨0, ["file:///prj.conf".data]⟩)]
        "file:///prj.conf".data =
      .ok (some ⟨0, ["file:///prj.conf".data]⟩, some ⟨0, ["file:///prj.conf".data]⟩) ∧
    bestCtx none [] "file:///prj.conf".data = .ok (none, none) := by
  refine ⟨rfl, rfl, rfl⟩

/-- The environment map used by the C5 counterexample, carrying the
`BOARD_DIR` and `BOARD` the claim says the defconfig path is derived from. -/
def envBd : List (List Char × List Char) :=
  [("BOARD_DIR".data, "/bd".data), ("BOARD".data, "b".data)]

/-- C5 (counterexample): the first `.conf` file of a freshly created context
is not `<BOARD_DIR>/<BOARD>_defconfig` from the context's environment — the
server uses its hard-coded board configuration, here under an environment
with `BOARD_DIR=/bd`, `BOARD=b`. -/
theorem c5_defconfig_counterexample :
    (createCtxFiles envBd ["/prj.conf".data]).head? ≠
      some (pyPathJoin "/bd".data ("b".data ++ "_defconfig".data)) ∧
    (createCtxFiles envBd ["/prj.conf".data]).head? =
      some "/home/trond/ncs/zephyr/boards/arm/nrf52dk_nrf52832/nrf52dk_nrf52832_defconfig".data := by
  constructor
  · decide
  · decide

/-- C5 (amended): the `.conf` stack is applied with `replace` at index 0 and
merge afterwards (a `replace` load discards any prior user values), and the
file at index 0 is the board defconfig `<dir>/<name>_defconfig` of the
*server's hard-coded* board configuration, prepended before all
user-supplied `.conf` files and independent of the context's environment. -/
theorem c5_conf_stack_amended :
    (∀ paths, (loadConfigCalls paths).map Prod.fst = paths) ∧
    (∀ p ps, (loadConfigCalls (p :: ps)).head? = some (p, true)) ∧
    (∀ p ps q, q ∈ (loadConfigCalls (p :: ps)).tail → q.2 = false) ∧
    (∀ e u, createCtxFiles e u =
      pyPathJoin serverBoardConf.dir (serverBoardConf.name ++ "_defconfig".data) :: u) ∧
    (∀ st es rest, runLoadStack st ((es, true) :: rest) =
      runLoadStack [] ((es, true) :: rest)) := by
  refine ⟨fun paths => loadConfigCallsAux_fst 0 paths, ?_, ?_, ?_, ?_⟩
  · intro p ps
    simp [loadConfigCalls, loadConfigCallsAux]
  · intro p ps q h
    exact loadConfigCallsAux_pos_false 0 ps q (by simpa [loadConfigCalls, loadConfigCallsAux] using h)
  · intro e u
    rfl
  · intro st es rest
    rfl

/-- Witness for C5: the two-file stack `["/a", "/b"]` loads `/a` with replace
and `/b` with merge, and the created context's file list starts with the
hard-coded defconfig. -/
theorem c5_conf_stack_witness :
    (loadConfigCalls ["/a".data, "/b".data]).map Prod.fst = ["/a".data, "/b".data] ∧
    (loadConfigCalls ["/a".data, "/b".data]).head? = some ("/a".data, true) ∧
    (("/b".data, false) : List Char × Bool).2 = false ∧
    createCtxFiles [] ["/prj.conf".data] =
      pyPathJoin serverBoardConf.dir (serverBoardConf.name ++ "_defconfig".data) ::
        ["/prj.conf".data] :=
  ⟨c5_conf_stack_amended.1 _, c5_conf_stack_amended.2.1 _ _,
    c5_conf_stack_amended.2.2.1 "/a".data ["/b".data] _ (by decide),
    c5_conf_stack_amended.2.2.2.1 _ _⟩

/-- C6 (counterexample): the synthetic command-line bucket is published under
`str(Uri.file('command-line'))`, which renders as `file://command-line` —
with an empty authority and no leading slash on the path — not as the
claimed `file:///command-line`. -/
theorem c6_command_line_uri_counterexample :
    publishList [] [] = [("file://command-line".data, [])] ∧
    "file://command-line".data ≠ "file:///command-line".data := by
  constructor
  · decide
  · decide

/-- C6 (amended): every warning recorded under an empty filename lands in
the context's command-line diagnostic bucket, and `handle_change` publishes
that bucket last, under the URI `file://command-line` (two slashes). -/
theorem c6_command_line_routing_amended :
    (∀ items files cmd fname ds d, (fname, ds) ∈ items → fname = [] → d ∈ ds →
      d ∈ (routeDiags files cmd items).2) ∧
    (∀ files cmd, (publishList files cmd).getLast? =
      some ("file://command-line".data, cmd)) := by
  constructor
  · intro items
    induction items with
    | nil => intro files cmd fname ds d h; cases h
    | cons it rest ih =>
      intro files cmd fname ds d hmem hf hd
      rcases List.mem_cons.mp hmem with heq | hm
      · cases heq
        subst hf
        rw [routeDiags, if_pos rfl]
        exact routeDiags_cmd_mono rest files _ d (List.mem_append_right _ hd)
      · rcases it with ⟨f0, ds0⟩
        rw [routeDiags]
        by_cases hf0 : f0 = []
        · rw [if_pos hf0]
          exact ih _ _ _ _ _ hm hf hd
        · rw [if_neg hf0]
          rcases hx : extendMatching (uriRepr (uriFile f0)) ds0 files with _ | files2
          · exact ih _ _ _ _ _ hm hf hd
          · exact ih _ _ _ _ _ hm hf hd
  · intro files cmd
    have hu : uriRepr (uriFile "command-line".data) = "file://command-line".data := by
      decide
    rw [publishList, hu, List.getLast?_concat]

/-- Witness for C6: a single warning recorded under the empty filename is in
the command-line bucket after routing. -/
theorem c6_command_line_routing_witness :
    (⟨"w".data⟩ : DiagE) ∈ (routeDiags [] [] [([], [⟨"w".data⟩])]).2 ∧
    (publishList [] [⟨"w".data⟩]).getLast? =
      some ("file://command-line".data, [⟨"w".data⟩]) :=
  ⟨c6_command_line_routing_amended.1 [([], [⟨"w".data⟩])] [] [] [] [⟨"w".data⟩]
      ⟨"w".data⟩ (by simp) rfl (by simp),
    c6_command_line_routing_amended.2 [] [⟨"w".data⟩]⟩

/-- Helper for C1: `get?` of a `zipWith` at an index present in both lists. -/
theorem get?_zipWith_some {α β γ : Type} (f : α → β → γ) :
    ∀ (l1 : List α) (l2 : List β) (k : Nat) (a : α) (b : β),
      l1.get? k = some a → l2.get? k = some b →
      (List.zipWith f l1 l2).get? k = some (f a b) := by
  intro l1
  induction l1 with
  | nil => intro l2 k a b h1 h2; simp at h1
  | cons x xs ih =>
    intro l2 k a b h1 h2
    cases l2 with
    | nil => simp at h2
    | cons y ys =>
      cases k with
      | zero =>
        simp only [List.get?] at h1 h2
        cases h1
        cases h2
        rfl
      | succ k =>
        simp only [List.get?] at h1 h2 ⊢
        exact ih ys k a b h1 h2

/-- Helper for C1: a successful `checkUserVals` run returns one diagnostic
list per `.conf` file. -/
theorem checkUserVals_length (env : List Char → Nat) :
    ∀ (syms : List CSym) (files : List (List (List Char)))
      (out : List (List EntryDiag)),
      checkUserVals env syms files = .ok out → out.length = files.length := by
  intro syms
  induction syms with
  | nil =>
    intro files out h
    rw [checkUserVals] at h
    cases h
    simp
  | cons s ss ih =>
    intro files out h
    rw [checkUserVals] at h
    rcases hw : checkSymWarning env s with e | w
    · rw [hw] at h; cases h
    · rw [hw] at h
      rcases w with _ | w
      · exact ih files out h
      · rcases hr : checkUserVals env ss files with e | rests
        · rw [hr] at h; cases h
        · rw [hr] at h
          cases h
          have := ih files rests hr
          simp [List.length_zipWith, this]

/-- A symbol for the C4 witness: `BAR`, bool, user value `y`, resolved `n`,
with direct dependency `A && B`. -/
def symBar : CSym :=
  ⟨"BAR".data, .bool, some (.tri 2), "n".data,
    .and (.sym "A".data) (.sym "B".data)⟩

/-- C4: `_missing_deps` returns exactly the conjuncts of the direct
dependency whose evaluation is strictly below the user value for
bool/tristate symbols, and exactly those evaluating to zero for the other
types, preserving the conjuncts' order (the result is a sublist of the
conjunction decomposition). -/
theorem c4_missing_deps (env : List Char → Nat) (sym : CSym) :
    (∀ n, isTriType sym.type = true → sym.userValue = some (.tri n) →
      ∃ l, missingDeps env sym = some l ∧
        List.Sublist l (splitAnd sym.directDep) ∧
        ∀ d, d ∈ l ↔ d ∈ splitAnd sym.directDep ∧ evalExpr env d < n) ∧
    (isTriType sym.type = false →
      ∃ l, missingDeps env sym = some l ∧
        List.Sublist l (splitAnd sym.directDep) ∧
        ∀ d, d ∈ l ↔ d ∈ splitAnd sym.directDep ∧ evalExpr env d = 0) := by
  constructor
  · intro n ht hu
    refine ⟨(splitAnd sym.directDep).filter (fun d => decide (evalExpr env d < n)),
      by simp [missingDeps, ht, hu], List.filter_sublist _, ?_⟩
    intro d
    simp [List.mem_filter]
  · intro ht
    refine ⟨(splitAnd sym.directDep).filter (fun d => decide (evalExpr env d = 0)),
      by simp [missingDeps, ht], List.filter_sublist _, ?_⟩
    intro d
    simp [List.mem_filter]

/-- Witness for C4 at `BAR` (bool, user value `y`, dependency `A && B`, both
dependencies currently `n`). -/
theorem c4_missing_deps_witness :
    ∃ l, missingDeps (fun _ => 0) symBar = some l ∧
      List.Sublist l (splitAnd symBar.directDep) ∧
      ∀ d, d ∈ l ↔ d ∈ splitAnd symBar.directDep ∧ evalExpr (fun _ => 0) d < 2 :=
  (c4_missing_deps (fun _ => 0) symBar).1 2 (by decide) rfl

/-- A symbol for the C1 counterexample: `FOO`, bool, user value `y`,
resolved value `n` (nonempty), trivially satisfied dependency. -/
def symFoo : CSym := ⟨"FOO".data, .bool, some (.tri 2), "n".data, .tri 2⟩

/-- C1 (counterexample): for `FOO` — whose resolved string value `"n"` is
nonempty — the claim predicts the comparative message
`CONFIG_FOO was assigned the value y, but got the value n.`, but
`_check_user_vals` produces `CONFIG_FOO couldn't be set.`: the source tests
`len(sym.str_value)` the opposite way round. -/
theorem c1_assignment_warning_counterexample :
    checkSymWarning (fun _ => 0) symFoo = .ok (some (couldntMsg "FOO".data)) ∧
    symFoo.strValue ≠ [] ∧
    couldntMsg "FOO".data ≠ assignedMsg "FOO".data "y".data "n".data := by
  refine ⟨rfl, by decide, by decide⟩

/-- Every warning `checkSymWarning` produces is the branch-selected base
message — with the displayed user value given by `userValDisp` — followed
by the missing-dependency suffix. -/
theorem checkSymWarning_shape {env : List Char → Nat} {sym : CSym}
    {w : List Char} (h : checkSymWarning env sym = .ok (some w)) :
    ∃ v deps, userValDisp sym = some v ∧ missingDeps env sym = some deps ∧
      w = (if sym.strValue.isEmpty then assignedMsg sym.name v sym.strValue
           else couldntMsg sym.name) ++ depsSuffix (deps.map exprStr) := by
  unfold checkSymWarning at h
  split at h
  · exact absurd h (by simp)
  · next uv huv =>
    split at h
    · exact Except.noConfusion h
    · next userValStr eqv hdisp =>
      have hvd : userValDisp sym = some userValStr := by
        unfold userValDisp
        rw [huv]
        dsimp only
        rw [hdisp]
      dsimp only at h
      split at h
      · exact absurd h (by simp)
      · split at h
        · exact Except.noConfusion h
        · next deps heq =>
          simp only [Except.ok.injEq, Option.some.injEq] at h
          subst h
          exact ⟨userValStr, deps, hvd, heq, rfl⟩

/-- C1 (amended): for every symbol whose user value differs from its
resolved value, the attached warning is `CONFIG_<name> couldn't be set.`
when the resolved string value is *nonempty* and
`CONFIG_<name> was assigned the value <v>, but got the value <v'>.` when it
is *empty* — the reverse of the claimed condition — where `<v>` is exactly
the displayed user value (`TRI_TO_STR` of the tristate value for
bool/tristate symbols, the raw string or `str()` of the int otherwise) and
`<v'>` the resolved string value, with the missing dependencies appended
when that list is nonempty; and `_check_user_vals` attaches that warning to
every matching `.conf` entry of every file. -/
theorem c1_assignment_warning_amended :
    (∀ env sym w, checkSymWarning env sym = .ok (some w) →
      (sym.strValue ≠ [] →
        w = couldntMsg sym.name ++
          depsSuffix (((missingDeps env sym).getD []).map exprStr)) ∧
      (sym.strValue = [] →
        ∃ v, userValDisp sym = some v ∧
          w = assignedMsg sym.name v sym.strValue ++
            depsSuffix (((missingDeps env sym).getD []).map exprStr))) ∧
    (∀ env syms files out, checkUserVals env syms files = .ok out →
      ∀ sym, sym ∈ syms → ∀ w, checkSymWarning env sym = .ok (some w) →
      ∀ k lines, files.get? k = some lines →
      ∃ dl, out.get? k = some dl ∧
        ∀ r ∈ fileEntries lines sym.name,
          (⟨w, r.1, r.2.1, r.2.2⟩ : EntryDiag) ∈ dl) := by
  constructor
  · intro env sym w h
    obtain ⟨v, deps, hvd, hdeps, hw⟩ := checkSymWarning_shape h
    constructor
    · intro hne
      have he : sym.strValue.isEmpty = false := by
        simpa [List.isEmpty_iff] using hne
      rw [hw, he, hdeps]
      simp
    · intro he
      have he2 : sym.strValue.isEmpty = true := by simp [he]
      refine ⟨v, hvd, ?_⟩
      rw [hw, he2, hdeps]
      simp
  · intro env syms files out hrun
    induction syms generalizing out with
    | nil => intro sym hmem; cases hmem
    | cons s ss ih =>
      intro sym hmem w hw k lines hk
      rw [checkUserVals] at hrun
      rcases hws : checkSymWarning env s with e | w0
      · rw [hws] at hrun
        cases hrun
      · rw [hws] at hrun
        rcases w0 with _ | w0
        · dsimp only at hrun
          rcases List.mem_cons.mp hmem with heq | hm
          · subst heq
            rw [hws] at hw
            cases hw
          · exact ih out hrun sym hm w hw k lines hk
        · dsimp only at hrun
          rcases hr : checkUserVals env ss files with e | rests
          · rw [hr] at hrun
            cases hrun
          · rw [hr] at hrun
            dsimp only at hrun
            cases hrun
            have hlen : rests.length = files.length :=
              checkUserVals_length env ss files rests hr
            have hklt : k < files.length := by
              by_contra hge
              rw [List.get?_eq_none.mpr (by omega)] at hk
              cases hk
            have hkr : ∃ dl0, rests.get? k = some dl0 := by
              rcases hx : rests.get? k with _ | dl0
              · rw [List.get?_eq_none] at hx
                omega
              · exact ⟨dl0, rfl⟩
            obtain ⟨dl0, hdl0⟩ := hkr
            have hout := get?_zipWith_some
              (fun lines rest =>
                (fileEntries lines s.name).map
                  (fun r => (⟨w0, r.1, r.2.1, r.2.2⟩ : EntryDiag)) ++ rest)
              files rests k lines dl0 hk hdl0
            rcases List.mem_cons.mp hmem with heq | hm
            · subst heq
              rw [hws] at hw
              cases hw
              refine ⟨_, hout, ?_⟩
              intro r hr2
              exact List.mem_append_left _ (List.mem_map_of_mem _ hr2)
            · obtain ⟨dl, hdl, hmem2⟩ := ih rests hr sym hm w hw k lines hk
              rw [hdl] at hdl0
              cases hdl0
              refine ⟨_, hout, ?_⟩
              intro r hr2
              exact List.mem_append_right _ (hmem2 r hr2)

/-- A symbol for the C1 witness's empty-branch: `BAZ`, bool, user value
`y`, empty resolved value, direct dependency on the symbol `DEP`. -/
def symBaz : CSym := ⟨"BAZ".data, .bool, some (.tri 2), [], .sym "DEP".data⟩

/-- Witness for C1: the nonempty-branch `FOO` warning has the amended
`couldn't` shape; the empty-branch `BAZ` warning interpolates exactly the
displayed user value `userValDisp` gives; and a `.conf` file with the
single line `CONFIG_FOO=y` receives the `FOO` warning on line 0, columns
0-10. -/
theorem c1_assignment_warning_witness :
    couldntMsg "FOO".data =
      couldntMsg symFoo.name ++
        depsSuffix (((missingDeps (fun _ => 0) symFoo).getD []).map exprStr) ∧
    (∃ v, userValDisp symBaz = some v ∧
      assignedMsg "BAZ".data "y".data [] ++
          depsSuffix (((missingDeps (fun _ => 0) symBaz).getD []).map exprStr) =
        assignedMsg symBaz.name v symBaz.strValue ++
          depsSuffix (((missingDeps (fun _ => 0) symBaz).getD []).map exprStr)) ∧
    ∃ dl, ([[(⟨couldntMsg "FOO".data, 0, 0, 10⟩ : EntryDiag)]] :
        List (List EntryDiag)).get? 0 = some dl ∧
      ∀ r ∈ fileEntries ["CONFIG_FOO=y".data] symFoo.name,
        (⟨couldntMsg "FOO".data, r.1, r.2.1, r.2.2⟩ : EntryDiag) ∈ dl := by
  refine ⟨?_, ?_, ?_⟩
  · exact (c1_assignment_warning_amended.1 (fun _ => 0) symFoo
      (couldntMsg "FOO".data) rfl).1 (by decide)
  · exact (c1_assignment_warning_amended.1 (fun _ => 0) symBaz
      (assignedMsg "BAZ".data "y".data [] ++
        depsSuffix (((missingDeps (fun _ => 0) symBaz).getD []).map exprStr))
      rfl).2 rfl
  · exact c1_assignment_warning_amended.2 (fun _ => 0) [symFoo]
      [["CONFIG_FOO=y".data]] [[⟨couldntMsg "FOO".data, 0, 0, 10⟩]] rfl
      symFoo (by simp) (couldntMsg "FOO".data) rfl 0 ["CONFIG_FOO=y".data] rfl

/-- Helper for C10: splitting a nonempty string yields at least one line. -/
theorem pySplitlines_ne_nil :
    ∀ {t : List Char}, t ≠ [] → pySplitlines t ≠ [] := by
  intro t ht
  match t with
  | [c] =>
    rw [pySplitlines]
    split <;> simp
  | c :: d :: cs =>
    rw [pySplitlines]
    split
    · simp
    · split
      · simp
      · split <;> simp

/-- Helper for C10: `intercalate` pulls a leading character out of the first
chunk. -/
theorem intercalate_cons_head (sep l : List Char) (c : Char)
    (ls : List (List Char)) :
    List.intercalate sep ((c :: l) :: ls) = c :: List.intercalate sep (l :: ls) := by
  cases ls with
  | nil => rw [intercalate_single, intercalate_single]
  | cons y ys =>
    rw [intercalate_cons_cons, intercalate_cons_cons]
    simp

/-- Helper for C10, part 1: for a string that ends in `'\n'` and whose only
line-break characters are `'\n'`, the stored text is the string without its
final character. -/
theorem docText_dropLast :
    ∀ (t : List Char), t.getLast? = some '\n' →
      (∀ c ∈ t, isLineBreak c = true → c = '\n') → docText t = t.dropLast
  | [] => by intro h _; simp at h
  | [c] => by
    intro hlast _
    simp only [List.getLast?_singleton, Option.some.injEq] at hlast
    subst hlast
    rw [docText, pySplitlines, if_pos (by decide), intercalate_single]
    rfl
  | c :: d :: cs => by
    intro hlast honly
    have hlast2 : (d :: cs).getLast? = some '\n' := by
      rwa [List.getLast?_cons_cons] at hlast
    have honly2 : ∀ x ∈ d :: cs, isLineBreak x = true → x = '\n' :=
      fun x hx => honly x (List.mem_cons_of_mem _ hx)
    have hrec : docText (d :: cs) = (d :: cs).dropLast :=
      docText_dropLast (d :: cs) hlast2 honly2
    have hsne : pySplitlines (d :: cs) ≠ [] := pySplitlines_ne_nil (by simp)
    by_cases hb : isLineBreak c = true
    · have hc : c = '\n' := honly c (by simp) hb
      subst hc
      rw [docText, pySplitlines, if_neg (by simp), if_pos (by decide)]
      rcases hx : pySplitlines (d :: cs) with _ | ⟨l, ls⟩
      · exact absurd hx hsne
      · have : List.intercalate ['\n'] ([] :: l :: ls) =
            '\n' :: List.intercalate ['\n'] (l :: ls) := by
          rw [intercalate_cons_cons]
          simp
        rw [this, ← hx]
        have : List.intercalate ['\n'] (pySplitlines (d :: cs)) = docText (d :: cs) := rfl
        rw [this, hrec]
        simp [List.dropLast]
    · have hcr : ¬(c = '\r' ∧ d = '\n') := by
        rintro ⟨rfl, _⟩
        exact hb (by decide)
      rw [docText, pySplitlines, if_neg hcr, if_neg hb]
      rcases hx : pySplitlines (d :: cs) with _ | ⟨l, ls⟩
      · exact absurd hx hsne
      · rw [intercalate_cons_head]
        have : List.intercalate ['\n'] (l :: ls) = docText (d :: cs) := by
          rw [docText, hx]
        rw [this, hrec]
        simp [List.dropLast]

/-- Helper for C10, part 2: a string ending in any line-break character
strictly shrinks under the splitlines/join round trip. -/
theorem docText_length_lt :
    ∀ (t : List Char) (c : Char), t.getLast? = some c → isLineBreak c = true →
      (docText t).length < t.length
  | [], c => by intro h _; simp at h
  | [c0], c => by
    intro hlast hb
    simp only [List.getLast?_singleton, Option.some.injEq] at hlast
    subst hlast
    rw [docText, pySplitlines, if_pos hb, intercalate_single]
    simp
  | c0 :: d :: cs, c => by
    intro hlast hb
    have hlast2 : (d :: cs).getLast? = some c := by
      rwa [List.getLast?_cons_cons] at hlast
    have hrec : (docText (d :: cs)).length < (d :: cs).length :=
      docText_length_lt (d :: cs) c hlast2 hb
    rw [docText, pySplitlines]
    by_cases hcr : c0 = '\r' ∧ d = '\n'
    · rw [if_pos hcr]
      cases cs with
      | nil =>
        rw [show pySplitlines [] = [] from rfl, intercalate_single]
        simp
      | cons e cs2 =>
        have hlast3 : (e :: cs2).getLast? = some c := by
          rwa [List.getLast?_cons_cons] at hlast2
        have hrec2 : (docText (e :: cs2)).length < (e :: cs2).length :=
          docText_length_lt (e :: cs2) c hlast3 hb
        rcases hx : pySplitlines (e :: cs2) with _ | ⟨l, ls⟩
        · exact absurd hx (pySplitlines_ne_nil (by simp))
        · have : List.intercalate ['\n'] ([] :: l :: ls) =
              '\n' :: List.intercalate ['\n'] (l :: ls) := by
            rw [intercalate_cons_cons]
            simp
          rw [this]
          have he : List.intercalate ['\n'] (l :: ls) = docText (e :: cs2) := by
            rw [docText, hx]
          rw [he]
          simp only [List.length_cons] at hrec2 ⊢
          omega
    · rw [if_neg hcr]
      by_cases hbc : isLineBreak c0 = true
      · rw [if_pos hbc]
        rcases hx : pySplitlines (d :: cs) with _ | ⟨l, ls⟩
        · exact absurd hx (pySplitlines_ne_nil (by simp))
        · have : List.intercalate ['\n'] ([] :: l :: ls) =
              '\n' :: List.intercalate ['\n'] (l :: ls) := by
            rw [intercalate_cons_cons]
            simp
          rw [this]
          have he : List.intercalate ['\n'] (l :: ls) = docText (d :: cs) := by
            rw [docText, hx]
          rw [he]
          simp only [List.length_cons] at hrec ⊢
          omega
      · rw [if_neg hbc]
        rcases hx : pySplitlines (d :: cs) with _ | ⟨l, ls⟩
        · exact absurd hx (pySplitlines_ne_nil (by simp))
        · rw [intercalate_cons_head]
          have he : List.intercalate ['\n'] (l :: ls) = docText (d :: cs) := by
            rw [docText, hx]
          rw [he]
          simp only [List.length_cons] at hrec ⊢
          omega

/-- C10 (counterexample): `"a\rb\n"` ends in a newline, but setting it as a
document's content yields `"a\nb"` — interior terminators are rewritten too —
not `"a\rb"`, the string with only the trailing newline removed. -/
theorem c10_set_text_counterexample :
    "a\rb\n".data.getLast? = some '\n' ∧
    docText "a\rb\n".data = "a\nb".data ∧
    "a\rb\n".data.dropLast = "a\rb".data ∧
    "a\nb".data ≠ "a\rb".data := by
  refine ⟨by decide, by decide, by decide, by decide⟩

/-- C10 (amended): for a string ending in `'\n'` whose only line-break
characters are `'\n'`, setting a document's content yields the string with
the trailing newline removed; and the set/get round trip is the identity
only for strings that do not end in a line terminator. -/
theorem c10_set_text_amended :
    (∀ t : List Char, t.getLast? = some '\n' →
      (∀ c ∈ t, isLineBreak c = true → c = '\n') → docText t = t.dropLast) ∧
    (∀ t : List Char, docText t = t →
      ∀ c, t.getLast? = some c → isLineBreak c = false) := by
  constructor
  · exact docText_dropLast
  · intro t hid c hlast
    by_contra hb
    have hb2 : isLineBreak c = true := by
      rcases hx : isLineBreak c with _ | _
      · exact absurd hx hb
      · rfl
    have := docText_length_lt t c hlast hb2
    rw [hid] at this
    omega

/-- Witness for C10: `"ab\n"` loses exactly its trailing newline, and the
round-tripping string `"ab"` indeed does not end in a line terminator. -/
theorem c10_set_text_witness :
    docText "ab\n".data = "ab".data ∧ isLineBreak 'b' = false := by
  constructor
  · have h := c10_set_text_amended.1 "ab\n".data (by decide) (by decide)
    have h2 : "ab\n".data.dropLast = "ab".data := by decide
    rw [h2] at h
    exact h
  · exact c10_set_text_amended.2 "ab".data (by decide) 'b' (by decide)

/-- Helper for C2/C3: `pySplitOn` never returns the empty list. -/
theorem pySplitOn_ne_nil (sep : Char) : ∀ (l : List Char), pySplitOn sep l ≠ [] := by
  intro l
  cases l with
  | nil => simp [pySplitOn]
  | cons c cs =>
    rw [pySplitOn]
    by_cases h : c = sep
    · rw [if_pos h]
      simp
    · rw [if_neg h]
      rcases hs : pySplitOn sep cs with _ | ⟨t, ts⟩ <;> simp

/-- Helper for C2/C3: joining two string parts. -/
theorem joinId_two (a b : List Char) :
    joinId [.s a, .s b] = .ok (a ++ '@' :: b) := by
  simp [joinId, idPartsStrs, List.intercalate, List.intersperse]

/-- Helper for C2/C3: joining three string parts. -/
theorem joinId_three (a b c : List Char) :
    joinId [.s a, .s b, .s c] = .ok (a ++ '@' :: (b ++ '@' :: c)) := by
  simp [joinId, idPartsStrs, List.intercalate, List.intersperse]

/-- Helper for C2/C3: joining four string parts. -/
theorem joinId_four (a b c d : List Char) :
    joinId [.s a, .s b, .s c, .s d] =
      .ok (a ++ '@' :: (b ++ '@' :: (c ++ '@' :: d))) := by
  simp [joinId, idPartsStrs, List.intercalate, List.intersperse]

/-- Helper for C2/C3: a trailing `int` part makes the join raise. -/
theorem joinId_int_last (a b : List Char) (i : Nat) :
    joinId [.s a, .s b, .i i] = .error .typeError := rfl

/-- Helper for C3: every id `_node_id` returns starts with the decimal parse
version followed by the separator. -/
theorem nodeId_ok_shape {ctx : KCtx} {node : MNode} {id : List Char}
    (h : nodeId ctx node = .ok id) :
    ∃ rest, id = natRepr ctx.version ++ '@' :: rest := by
  unfold nodeId at h
  by_cases htop : node = ctx.topNode
  · rw [if_pos htop] at h
    dsimp only at h
    rw [joinId_two] at h
    cases h
    exact ⟨_, rfl⟩
  · rw [if_neg htop] at h
    rcases hitem : node.item with _ | name | cid | _
    · rw [hitem] at h
      dsimp only at h
      rcases hli : listIndex ctx.menus node with _ | i
      · rw [hli] at h
        exact Except.noConfusion h
      · rw [hli] at h
        dsimp only at h
        rw [joinId_three] at h
        cases h
        exact ⟨_, rfl⟩
    · rw [hitem] at h
      dsimp only at h
      rcases hlk : List.lookup name ctx.syms with _ | nodes
      · rw [hlk] at h
        exact Except.noConfusion h
      · rw [hlk] at h
        dsimp only at h
        rcases hli : listIndex nodes node with _ | i
        · rw [hli] at h
          exact Except.noConfusion h
        · rw [hli] at h
          dsimp only at h
          rw [joinId_four] at h
          cases h
          exact ⟨_, rfl⟩
    · rw [hitem] at h
      exact Except.noConfusion h
    · rw [hitem] at h
      dsimp only at h
      rcases hli : listIndex ctx.comments node with _ | i
      · rw [hli] at h
        exact Except.noConfusion h
      · rw [hli] at h
        dsimp only at h
        rw [joinId_int_last] at h
        exact Except.noConfusion h

/-- C2 (amended): for main-menu, `MENU`-marker and symbol nodes, looking up
the generated identifier returns the node itself while the parse version is
unchanged.  (For choice and comment nodes id generation raises instead; see
the counterexample.) -/
theorem c2_node_id_roundtrip_amended (ctx : KCtx) (node : MNode) :
    (node = ctx.topNode →
      ∃ id, nodeId ctx node = .ok id ∧
        findNode ctx id = .ok (some (.node node))) ∧
    (node ≠ ctx.topNode → node.item = .menu → node ∈ ctx.menus →
      ∃ id, nodeId ctx node = .ok id ∧
        findNode ctx id = .ok (some (.node node))) ∧
    (∀ name nodes, node ≠ ctx.topNode → node.item = .sym name →
      List.lookup name ctx.syms = some nodes → node ∈ nodes → '@' ∉ name →
      ∃ id, nodeId ctx node = .ok id ∧
        findNode ctx id = .ok (some (.node node))) := by
  refine ⟨?_, ?_, ?_⟩
  · intro htop
    refine ⟨natRepr ctx.version ++ '@' :: "MAINMENU".data, ?_, ?_⟩
    · unfold nodeId
      rw [if_pos htop]
      dsimp only
      rw [joinId_two]
    · have hsplit : pySplitOn '@' (natRepr ctx.version ++ '@' :: "MAINMENU".data) =
          [natRepr ctx.version, "MAINMENU".data] := by
        rw [pySplitOn_append _ (natRepr_no_at _), pySplitOn_no_sep (by decide)]
      unfold findNode
      rw [hsplit]
      dsimp only
      rw [pyIntParse_natRepr]
      dsimp only
      rw [if_neg (by simp), if_neg (by decide), if_neg (by decide),
        if_neg (by decide), if_neg (by decide), if_pos rfl, htop]
  · intro htop hitem hmem
    obtain ⟨i, hli⟩ := listIndex_of_mem hmem
    obtain ⟨hlt, hget⟩ := listIndex_spec hli
    refine ⟨natRepr ctx.version ++ '@' :: ("MENU".data ++ '@' :: natRepr i), ?_, ?_⟩
    · unfold nodeId
      rw [if_neg htop, hitem]
      dsimp only
      rw [hli]
      dsimp only
      rw [joinId_three]
    · have hsplit : pySplitOn '@'
          (natRepr ctx.version ++ '@' :: ("MENU".data ++ '@' :: natRepr i)) =
          [natRepr ctx.version, "MENU".data, natRepr i] := by
        rw [pySplitOn_append _ (natRepr_no_at _),
          pySplitOn_append _ (by decide), pySplitOn_no_sep (natRepr_no_at _)]
      unfold findNode
      rw [hsplit]
      dsimp only
      rw [pyIntParse_natRepr]
      dsimp only
      rw [if_neg (by simp), if_pos rfl]
      simp only [List.head?_cons, List.tail_cons]
      rw [pyIntParse_natRepr]
      simp only [pyGet_nat ctx.menus i hlt, Except.map_ok]
      rw [hget]
      rfl
  · intro name nodes htop hitem hlk hmem hat
    obtain ⟨i, hli⟩ := listIndex_of_mem hmem
    obtain ⟨hlt, hget⟩ := listIndex_spec hli
    refine ⟨natRepr ctx.version ++ '@' ::
      ("SYM".data ++ '@' :: (name ++ '@' :: natRepr i)), ?_, ?_⟩
    · unfold nodeId
      rw [if_neg htop, hitem]
      dsimp only
      rw [hlk]
      dsimp only
      rw [hli]
      dsimp only
      rw [joinId_four]
    · have hsplit : pySplitOn '@' (natRepr ctx.version ++ '@' ::
          ("SYM".data ++ '@' :: (name ++ '@' :: natRepr i))) =
          [natRepr ctx.version, "SYM".data, name, natRepr i] := by
        rw [pySplitOn_append _ (natRepr_no_at _),
          pySplitOn_append _ (by decide), pySplitOn_append _ hat,
          pySplitOn_no_sep (natRepr_no_at _)]
      unfold findNode
      rw [hsplit]
      dsimp only
      rw [pyIntParse_natRepr]
      dsimp only
      rw [if_neg (by simp), if_neg (by decide), if_pos rfl]
      simp only [List.head?_cons, List.tail_cons]
      rw [hlk]
      simp only [List.head?_cons, List.tail_cons]
      rw [pyIntParse_natRepr]
      simp only [pyGet_nat nodes i hlt, Except.map_ok]
      rw [hget]
      rfl

/-- Witness context for C2/C3: parse version 1, one `MENU` node, one comment
node, one symbol with a single node, one choice. -/
def ctxC : KCtx :=
  { version := 1
    topNode := ⟨0, .menu⟩
    menus := [⟨1, .menu⟩]
    comments := [⟨2, .comment⟩]
    syms := [("FOO".data, [⟨3, .sym "FOO".data⟩])]
    choices := [⟨0⟩]
    menu := none }

/-- C2 (counterexample): for the comment node of `ctxC` — a menu node of the
context — `_node_id` raises `TypeError` (the raw `int` index is passed to
`str.join`), and for a choice node it raises `ValueError`
(`choices.index(node)` searches a `MenuNode` among `Choice` objects), so no
identifier exists whose lookup returns the node. -/
theorem c2_node_id_roundtrip_counterexample :
    (⟨2, .comment⟩ : MNode) ∈ ctxC.comments ∧
    nodeId ctxC ⟨2, .comment⟩ = .error .typeError ∧
    nodeId ctxC ⟨4, .choice 0⟩ = .error .valueError ∧
    ¬ ∃ id, nodeId ctxC ⟨2, .comment⟩ = .ok id ∧
      findNode ctxC id = .ok (some (.node ⟨2, .comment⟩)) := by
  refine ⟨by decide, rfl, rfl, ?_⟩
  rintro ⟨id, h1, _⟩
  have h0 : nodeId ctxC ⟨2, .comment⟩ = .error .typeError := rfl
  rw [h0] at h1
  exact Except.noConfusion h1

/-- Witness for C2: the round trip on the `MENU` node of `ctxC`. -/
theorem c2_node_id_roundtrip_witness :
    ∃ id, nodeId ctxC ⟨1, .menu⟩ = .ok id ∧
      findNode ctxC id = .ok (some (.node ⟨1, .menu⟩)) :=
  (c2_node_id_roundtrip_amended ctxC ⟨1, .menu⟩).2.1 (by decide) rfl (by decide)

/-- C3 (amended): presenting an id generated at one parse version to a
context whose version differs makes `handle_set_menu` return a null result
(`find_node` returns `None`, `get_menu` returns `None`) — not a `Desync`
RPC error. -/
theorem c3_stale_set_menu_amended (ctx ctx2 : KCtx) (node : MNode)
    (id : List Char) (hgen : nodeId ctx node = .ok id)
    (hver : ctx2.version ≠ ctx.version) :
    (handleSetMenu ctx2 id).2 = .ok none := by
  obtain ⟨rest, hid⟩ := nodeId_ok_shape hgen
  have hsplit0 : pySplitOn '@' id = natRepr ctx.version :: pySplitOn '@' rest := by
    rw [hid]
    exact pySplitOn_append rest (natRepr_no_at _)
  obtain ⟨p0, ps, hps⟩ : ∃ p0 ps, pySplitOn '@' rest = p0 :: ps := by
    rcases hx : pySplitOn '@' rest with _ | ⟨p0, ps⟩
    · exact absurd hx (pySplitOn_ne_nil '@' rest)
    · exact ⟨p0, ps, rfl⟩
  have hne : id ≠ [] := by
    rw [hid]
    intro hemp
    rcases List.append_eq_nil.mp hemp with ⟨h1, _⟩
    exact natRepr_ne_nil _ h1
  have hfind : findNode { ctx2 with menu := some id } id = .ok none := by
    unfold findNode
    rw [hsplit0, hps]
    dsimp only
    rw [pyIntParse_natRepr]
    dsimp only
    rw [if_pos (by exact_mod_cast Ne.symm hver)]
  unfold handleSetMenu getMenu
  dsimp only
  rw [if_neg hne]
  dsimp only
  rw [hfind]

/-- C3 (counterexample): the id of `ctxC`'s main menu, generated at version
1, presented after the version moved to 2 yields a null result — not the
claimed `Desync` error (core error code 2). -/
theorem c3_stale_set_menu_counterexample :
    nodeId ctxC ctxC.topNode = .ok "1@MAINMENU".data ∧
    (handleSetMenu { ctxC with version := 2 } "1@MAINMENU".data).2 = .ok none ∧
    ((.ok none : Except PyErr (Option Unit)) ≠ .error (.rpcError 2)) := by
  refine ⟨rfl, rfl, fun h => Except.noConfusion h⟩

/-- Witness for C3: the amended statement applied to `ctxC` and its bumped
copy. -/
theorem c3_stale_set_menu_witness :
    (handleSetMenu { ctxC with version := 2 } "1@MAINMENU".data).2 = .ok none :=
  c3_stale_set_menu_amended ctxC { ctxC with version := 2 } ctxC.topNode
    "1@MAINMENU".data rfl (by decide)

/-- Helper for C9: the tail of a percent-digit-free list is
percent-digit-free. -/
theorem hasPctDigit_cons_false {c : Char} {l : List Char}
    (h : hasPctDigit (c :: l) = false) : hasPctDigit l = false := by
  simp only [hasPctDigit, Bool.or_eq_false_iff] at h
  exact h.2

/-- Helper for C9: prepending a non-`%` character preserves
percent-digit-freedom. -/
theorem hasPct_cons_of {c : Char} {l : List Char} (hc : ¬(c = '%'))
    (h : hasPctDigit l = false) : hasPctDigit (c :: l) = false := by
  simp [hasPctDigit, h, hc]

/-- C9 (counterexample): `file:///a%65` is accepted and fully consumed by
`Uri.parse`, but the `%65` is decoded (decimal `chr(65)` is `A`), so
stringifying gives `file:///aA`, not the original. -/
theorem c9_uri_roundtrip_counterexample :
    pyUriParse "file:///a%65".data = some (uriFile "/aA".data) ∧
    uriRepr (uriFile "/aA".data) = "file:///aA".data ∧
    "file:///aA".data ≠ "file:///a%65".data := by
  refine ⟨by decide, by decide, by decide⟩

/-- C9 (amended): for every URI string the parser accepts *and consumes
entirely*, and which contains no `%` followed by a decimal digit,
stringifying the parsed URI yields the original string.  (Percent-digit
sequences are decoded during parse and never re-encoded, and a partially
consumed suffix is dropped, so those inputs do not round-trip.) -/
theorem c9_uri_roundtrip_amended (raw : List Char) (u : UriE)
    (hp : uriParse raw = some (u, [])) (hpct : hasPctDigit raw = false) :
    uriRepr u = raw := by
  unfold uriParse at hp
  rcases h3 : splitStr3 raw with _ | ⟨scheme, rest⟩
  · rw [h3] at hp
    exact Option.noConfusion hp
  rw [h3] at hp
  dsimp only at hp
  by_cases hn1 : '\n' ∈ scheme
  · rw [if_pos hn1] at hp
    exact Option.noConfusion hp
  rw [if_neg hn1] at hp
  rcases hsl : splitSlash rest with _ | ⟨auth, rest2⟩
  · rw [hsl] at hp
    exact Option.noConfusion hp
  rw [hsl] at hp
  dsimp only at hp
  by_cases hn2 : '\n' ∈ auth
  · rw [if_pos hn2] at hp
    exact Option.noConfusion hp
  rw [if_neg hn2] at hp
  have hraw : raw = scheme ++ ':' :: '/' :: '/' :: rest := splitStr3_eq h3
  have hrest : rest = auth ++ '/' :: rest2 := splitSlash_eq hsl
  have hr2 : rest2.takeWhile pathChar ++ rest2.dropWhile pathChar = rest2 :=
    List.takeWhile_append_dropWhile pathChar rest2
  have hpct0 : hasPctDigit (scheme ++ ':' :: '/' :: '/' :: rest) = false := by
    rw [← hraw]
    exact hpct
  obtain ⟨hpS, hpct1⟩ := hasPctDigit_append_false hpct0
  have hpct2 : hasPctDigit rest = false :=
    hasPctDigit_cons_false (hasPctDigit_cons_false (hasPctDigit_cons_false hpct1))
  have hpct3 : hasPctDigit (auth ++ '/' :: rest2) = false := by
    rw [← hrest]
    exact hpct2
  obtain ⟨hpA, hpct4⟩ := hasPctDigit_append_false hpct3
  have hpct5 : hasPctDigit rest2 = false := hasPctDigit_cons_false hpct4
  have hpct6 : hasPctDigit
      (rest2.takeWhile pathChar ++ rest2.dropWhile pathChar) = false := by
    rw [hr2]
    exact hpct5
  obtain ⟨hpP, hpR3⟩ := hasPctDigit_append_false hpct6
  have hsanS : sanitize scheme = scheme := sanitize_id hpS
  have hsanA : sanitize auth = auth := sanitize_id hpA
  have hsanP : sanitize ('/' :: rest2.takeWhile pathChar) =
      '/' :: rest2.takeWhile pathChar :=
    sanitize_id (hasPct_cons_of (by decide) hpP)
  have hsanN : sanitize ([] : List Char) = [] := rfl
  rcases hr3 : rest2.dropWhile pathChar with _ | ⟨c3, t3⟩
  · rw [hr3] at hp
    dsimp only at hp
    simp only [Option.some.injEq, Prod.mk.injEq] at hp
    obtain ⟨hu, -⟩ := hp
    subst hu
    unfold uriRepr
    dsimp only
    rw [hsanS, hsanA, hsanP, hsanN, if_pos rfl, if_pos rfl]
    have hr2n : rest2.takeWhile pathChar = rest2 := by
      have h := hr2
      rw [hr3, List.append_nil] at h
      exact h
    rw [hr2n, hraw, hrest]
    simp
  · rw [hr3] at hp
    dsimp only at hp
    rw [hr3] at hpR3
    have hpT3 : hasPctDigit t3 = false := hasPctDigit_cons_false hpR3
    have hr2c : rest2 = rest2.takeWhile pathChar ++ c3 :: t3 := by
      conv_lhs => rw [← hr2]
      rw [hr3]
    by_cases hc3 : c3 = '?'
    · rw [if_pos hc3] at hp
      by_cases hqq : t3.takeWhile (fun x => !(x = '#')) = []
      · rw [if_pos hqq] at hp
        dsimp only at hp
        by_cases hc3h : c3 = '#'
        · rw [hc3h] at hc3
          exact absurd hc3 (by decide)
        · rw [if_neg hc3h] at hp
          simp only [Option.some.injEq, Prod.mk.injEq] at hp
          exact absurd hp.2 (by simp)
      · rw [if_neg hqq] at hp
        dsimp only at hp
        have ht3 : t3.takeWhile (fun x => !(x = '#')) ++
            t3.dropWhile (fun x => !(x = '#')) = t3 :=
          List.takeWhile_append_dropWhile _ t3
        have hpQF : hasPctDigit (t3.takeWhile (fun x => !(x = '#')) ++
            t3.dropWhile (fun x => !(x = '#'))) = false := by
          rw [ht3]
          exact hpT3
        obtain ⟨hpQQ, hpDW⟩ := hasPctDigit_append_false hpQF
        have hsanQ : sanitize (t3.takeWhile (fun x => !(x = '#'))) =
            t3.takeWhile (fun x => !(x = '#')) := sanitize_id hpQQ
        rcases hr4 : t3.dropWhile (fun x => !(x = '#')) with _ | ⟨c4, t4⟩
        · rw [hr4] at hp
          dsimp only at hp
          simp only [Option.some.injEq, Prod.mk.injEq] at hp
          obtain ⟨hu, -⟩ := hp
          subst hu
          unfold uriRepr
          dsimp only
          rw [hsanS, hsanA, hsanP, hsanQ, hsanN, if_neg hqq, if_pos rfl]
          have ht3n : t3.takeWhile (fun x => !(x = '#')) = t3 := by
            have h := ht3
            rw [hr4, List.append_nil] at h
            exact h
          rw [ht3n]
          conv_rhs => rw [hraw, hrest, hr2c, hc3]
          simp
        · rw [hr4] at hp
          dsimp only at hp
          by_cases hc4 : c4 = '#'
          · rw [if_pos hc4] at hp
            rw [hr4] at hpDW
            have hpT4 : hasPctDigit t4 = false := hasPctDigit_cons_false hpDW
            by_cases hff : t4.takeWhile (fun x => !(x = '\n')) = []
            · rw [if_pos hff] at hp
              simp only [Option.some.injEq, Prod.mk.injEq] at hp
              exact absurd hp.2 (by simp)
            · rw [if_neg hff] at hp
              simp only [Option.some.injEq, Prod.mk.injEq] at hp
              obtain ⟨hu, hleft⟩ := hp
              subst hu
              have ht4 : t4.takeWhile (fun x => !(x = '\n')) ++
                  t4.dropWhile (fun x => !(x = '\n')) = t4 :=
                List.takeWhile_append_dropWhile _ t4
              have hpFF : hasPctDigit (t4.takeWhile (fun x => !(x = '\n'))) = false := by
                have : hasPctDigit (t4.takeWhile (fun x => !(x = '\n')) ++
                    t4.dropWhile (fun x => !(x = '\n'))) = false := by
                  rw [ht4]
                  exact hpT4
                exact (hasPctDigit_append_false this).1
              have hsanF : sanitize (t4.takeWhile (fun x => !(x = '\n'))) =
                  t4.takeWhile (fun x => !(x = '\n')) := sanitize_id hpFF
              unfold uriRepr
              dsimp only
              rw [hsanS, hsanA, hsanP, hsanQ, hsanF, if_neg hqq, if_neg hff]
              have ht4n : t4.takeWhile (fun x => !(x = '\n')) = t4 := by
                have h := ht4
                rw [hleft, List.append_nil] at h
                exact h
              have ht3e : t3 = t3.takeWhile (fun x => !(x = '#')) ++ '#' :: t4 := by
                conv_lhs => rw [← ht3]
                rw [hr4, hc4]
              rw [ht4n]
              conv_rhs => rw [hraw, hrest, hr2c, hc3, ht3e]
              simp
          · have hh := dropWhile_head_not hr4
            simp at hh
            exact absurd hh hc4
    · have hpc3 : pathChar c3 = false := dropWhile_head_not hr3
      have hc3ws : isPyWs c3 = true := by
        simp only [pathChar, Bool.and_eq_false_iff, Bool.not_eq_false] at hpc3
        rcases hpc3 with h | h
        · exact absurd (by simpa using h) hc3
        · simpa using h
      rw [if_neg hc3] at hp
      dsimp only at hp
      by_cases hc3h : c3 = '#'
      · rw [hc3h] at hc3ws
        exact absurd hc3ws (by decide)
      · rw [if_neg hc3h] at hp
        simp only [Option.some.injEq, Prod.mk.injEq] at hp
        exact absurd hp.2 (by simp)

/-- Witness for C9: a fully consumed URI with authority, path, query and
fragment round-trips. -/
theorem c9_uri_roundtrip_witness :
    uriRepr ⟨"https".data, "example.com".data, "/some/path.html".data,
      "q=1".data, "frag".data⟩ = "https://example.com/some/path.html?q=1#frag".data :=
  c9_uri_roundtrip_amended "https://example.com/some/path.html?q=1#frag".data
    ⟨"https".data, "example.com".data, "/some/path.html".data,
      "q=1".data, "frag".data⟩ (by decide) (by decide)

end VscodeKconfig
